import Mathlib

/-!
Verification development for the candidate filtering and ranking pipeline of
the ZotWatch repository (src/dedupe.py, src/score_rank.py, src/faiss_store.py,
src/vectorizer.py, src/models.py).

Python strings are modelled as Lean `String` (case folding is modelled for
ASCII, which covers every comparison the properties below exercise), Python
floats as `ℚ` where the code only moves values around and as `ℝ` where the
code applies `log`/`sqrt`, and `datetime` values as POSIX seconds (`Int`).
-/

/-- Models Python `str.strip` on a character list: drop leading whitespace. -/
def dropLeadingWs : List Char → List Char
  | [] => []
  | c :: cs => if c.isWhitespace then dropLeadingWs cs else c :: cs

/-- Models Python `str.strip`: whitespace removed from both ends. -/
def pyStrip (s : String) : String :=
  ⟨((dropLeadingWs ((dropLeadingWs s.data).reverse)).reverse)⟩

/-- Models Python `str.lower` (ASCII letters; the dedupe comparisons proved
here only involve ASCII data). -/
def asciiLower (s : String) : String :=
  ⟨s.data.map Char.toLower⟩

/-- Models `dedupe._normalize_identifier`: `(value or "").lower().strip()`. -/
def normalize_identifier (value : String) : String :=
  pyStrip (asciiLower value)

/-- Accumulator pass behind `tokensOf`: split a character list on whitespace
runs, dropping empty pieces, as Python `str.split()` does. -/
def splitWsGo : List Char → List Char → List (List Char)
  | [], cur => if cur.isEmpty then [] else [cur.reverse]
  | c :: cs, cur =>
    if c.isWhitespace then
      if cur.isEmpty then splitWsGo cs [] else cur.reverse :: splitWsGo cs []
    else splitWsGo cs (c :: cur)

/-- Models Python `str.split()` with no separator: whitespace-run splitting. -/
def tokensOf (s : String) : List String :=
  (splitWsGo s.data []).map (fun cs => ⟨cs⟩)

/-- Models `dedupe._normalize_title`:
`re.sub(r"\s+", " ", title or "").strip().lower()`. -/
def normalize_title (title : String) : String :=
  asciiLower (String.intercalate " " (tokensOf title))

/-- Rational division spelled out through `Rat.divInt` so that it reduces in
the kernel (`Rat.inv` does not); `qdiv_eq_div` below shows it is ordinary
division on `ℚ`. -/
def qdiv (a b : ℚ) : ℚ :=
  Rat.divInt (a.num * b.den) (a.den * b.num)

/-- Python string comparison (lexicographic by codepoint), as a boolean so
that it reduces in the kernel. -/
def charListLt : List Char → List Char → Bool
  | [], [] => false
  | [], _ :: _ => true
  | _ :: _, [] => false
  | a :: as, b :: bs =>
    if a.toNat < b.toNat then true
    else if b.toNat < a.toNat then false
    else charListLt as bs

/-- Models Python `<` on strings. -/
def strLt (a b : String) : Bool :=
  charListLt a.data b.data

/-- Insert a string into an ascending sorted list (Python `sorted`). -/
def insortStr (x : String) : List String → List String
  | [] => [x]
  | y :: ys => if strLt x y then x :: y :: ys else y :: insortStr x ys

/-- Models Python `sorted` on strings (codepoint order). -/
def sortStrs (l : List String) : List String :=
  l.foldr insortStr []

/-- Models Python `sorted(set(...))`: distinct tokens in ascending order. -/
def uniqueSorted (ts : List String) : List String :=
  sortStrs ts.eraseDups

/-- Set intersection on token lists (Python `set.intersection`). -/
def strInter (a b : List String) : List String :=
  a.filter (fun t => b.contains t)

/-- Set difference on token lists (Python `set.difference`). -/
def strDiff (a b : List String) : List String :=
  a.filter (fun t => !(b.contains t))

/-- Fuel-indexed longest-common-subsequence length; the fuel is always
instantiated at `xs.length + ys.length`, which is enough for every branch. -/
def lcsFuel : Nat → List Char → List Char → Nat
  | 0, _, _ => 0
  | _ + 1, [], _ => 0
  | _ + 1, _ :: _, [] => 0
  | fuel + 1, a :: as, b :: bs =>
    if a = b then lcsFuel fuel as bs + 1
    else max (lcsFuel fuel (a :: as) bs) (lcsFuel fuel as (b :: bs))

/-- Longest common subsequence length of two character lists. -/
def lcsLen (xs ys : List Char) : Nat :=
  lcsFuel (xs.length + ys.length) xs ys

/-- Modelled from the spec: the external `rapidfuzz` Indel-normalized
similarity `ratio`, scaled 0–100.  Indel distance equals
`len1 + len2 - 2 * LCS`, and the normalized similarity is
`1 - dist / (len1 + len2)` (100 when both strings are empty). -/
def indel_similarity (s1 s2 : String) : ℚ :=
  let total := s1.data.length + s2.data.length
  if total = 0 then 100
  else
    let dist := total - 2 * lcsLen s1.data s2.data
    Rat.divInt (100 * ((total : Int) - (dist : Int))) (total : Int)

/-- Join a sorted token list with single spaces (Python `" ".join`). -/
def joinTokens (ts : List String) : String :=
  String.intercalate " " ts

/-- Modelled from the spec: the external `rapidfuzz.fuzz.token_set_ratio`
(token-set-based similarity: order- and repetition-insensitive token overlap
ratio, scored 0–100).  Both strings are split into sorted distinct tokens;
with `t0` the joined intersection, `t1` the joined intersection-plus-left
difference and `t2` the joined intersection-plus-right difference, the score
is the maximum of the pairwise Indel similarities, 100 when one token set
contains the other, and 0 when either token set is empty. -/
def token_set_ratio (s1 s2 : String) : ℚ :=
  let ta := uniqueSorted (tokensOf s1)
  let tb := uniqueSorted (tokensOf s2)
  if ta.isEmpty || tb.isEmpty then 0
  else
    let inter := strInter ta tb
    let dab := strDiff ta tb
    let dba := strDiff tb ta
    if !inter.isEmpty && (dab.isEmpty || dba.isEmpty) then 100
    else
      let sect := joinTokens inter
      let t1 := if sect = "" then joinTokens dab
                else if dab.isEmpty then sect else sect ++ " " ++ joinTokens dab
      let t2 := if sect = "" then joinTokens dba
                else if dba.isEmpty then sect else sect ++ " " ++ joinTokens dba
      max (max (indel_similarity sect t1) (indel_similarity sect t2))
        (indel_similarity t1 t2)

/-- Models `models.CandidateWork` (pydantic): the discovered-work record.
`published` is POSIX seconds; `metrics` is the name→value map as an
association list; `extra` is the opaque extension map. -/
structure CandidateWork where
  source : String
  identifier : String
  title : String
  abstract : Option String
  authors : List String
  doi : Option String
  url : Option String
  published : Option Int
  venue : Option String
  metrics : List (String × ℚ)
  extra : List (String × String)
deriving DecidableEq

/-- Models `dedupe._is_title_in_list`: true when some non-empty entry of the
list has `fuzz.token_set_ratio(title, existing) / 100 >= threshold`. -/
def is_title_in_list (title : String) (title_list : List String) (threshold : ℚ) : Bool :=
  title_list.any (fun existing =>
    !(existing == "") && decide (threshold ≤ qdiv (token_set_ratio title existing) 100))

/-- Models the state of `dedupe.DedupeEngine` after `_load_existing`: the
normalized known DOIs, known URLs/identifiers, known titles, and the title
similarity threshold (constructor default 0.9). -/
structure DedupeEngine where
  title_threshold : ℚ
  existing_doi : List String
  existing_ids : List String
  existing_titles : List String
deriving DecidableEq

/-- Models the combined truthiness-and-normalization of the candidate DOI in
`DedupeEngine.filter`: Python computes
`doi = _normalize_identifier(work.doi) if work.doi else None` and then guards
every use with `if doi and ...`, so the DOI participates exactly when
`work.doi` is a non-empty string whose normalization is also non-empty. -/
def doiT (w : CandidateWork) : Option String :=
  match w.doi with
  | none => none
  | some s =>
    if s = "" then none
    else
      let n := normalize_identifier s
      if n = "" then none else some n

/-- The keys an accepted candidate contributes to `seen_keys`: its normalized
identifier always, plus its active normalized DOI. -/
def seenAdd (w : CandidateWork) : List String :=
  normalize_identifier w.identifier ::
    (match doiT w with
     | some d => [d]
     | none => [])

/-- Models the loop body of `dedupe.DedupeEngine.filter`: walk the batch with
the shared `seen_keys` set and the accepted-title list, keeping candidates
that pass all four duplicate checks. -/
def filterGo (eng : DedupeEngine) :
    List CandidateWork → List String → List String → List CandidateWork
  | [], _, _ => []
  | w :: rest, seenKeys, batchTitles =>
    let key := normalize_identifier w.identifier
    let doi := doiT w
    let title := normalize_title w.title
    if (match doi with
        | some d => eng.existing_doi.contains d
        | none => false) then
      filterGo eng rest seenKeys batchTitles
    else if (match doi with
        | some d => seenKeys.contains d
        | none => false) then
      filterGo eng rest seenKeys batchTitles
    else if eng.existing_ids.contains key || seenKeys.contains key then
      filterGo eng rest seenKeys batchTitles
    else if is_title_in_list title eng.existing_titles eng.title_threshold
        || is_title_in_list title batchTitles eng.title_threshold then
      filterGo eng rest seenKeys batchTitles
    else
      w :: filterGo eng rest (seenKeys ++ seenAdd w) (batchTitles ++ [title])

/-- Models `dedupe.DedupeEngine.filter`: run the batch walk from empty
per-call state. -/
def DedupeEngine.filter (eng : DedupeEngine) (candidates : List CandidateWork) :
    List CandidateWork :=
  filterGo eng candidates [] []

/-- Single boolean capturing the four sequential duplicate checks of
`DedupeEngine.filter` (true when the candidate is kept); the rewriting lemma
`filterGo_cons` below shows the loop body equals this test. -/
def dedupe_accepts (eng : DedupeEngine) (w : CandidateWork)
    (seenKeys batchTitles : List String) : Bool :=
  !((match doiT w with
     | some d => eng.existing_doi.contains d
     | none => false)
    || (match doiT w with
        | some d => seenKeys.contains d
        | none => false)
    || (eng.existing_ids.contains (normalize_identifier w.identifier)
        || seenKeys.contains (normalize_identifier w.identifier))
    || (is_title_in_list (normalize_title w.title) eng.existing_titles eng.title_threshold
        || is_title_in_list (normalize_title w.title) batchTitles eng.title_threshold))

/-- Reference acceptance test following the words of the spec sentence behind
claim C2: the batch-scoped DOI check consults only DOIs accepted earlier, and
the batch-scoped identifier check consults only identifiers accepted earlier
(separate scopes, unlike the implementation's shared `seen_keys`). -/
def specC2_accepts (eng : DedupeEngine) (w : CandidateWork)
    (accDois accIds accTitles : List String) : Bool :=
  (match doiT w with
   | some d => !(eng.existing_doi.contains d) && !(accDois.contains d)
   | none => true)
  && !(eng.existing_ids.contains (normalize_identifier w.identifier))
  && !(accIds.contains (normalize_identifier w.identifier))
  && !(is_title_in_list (normalize_title w.title) eng.existing_titles eng.title_threshold)
  && !(is_title_in_list (normalize_title w.title) accTitles eng.title_threshold)

/-- Reference filter built from `specC2_accepts`, recording the accepted DOIs,
identifiers and titles in separate per-kind scopes as claim C2 words it. -/
def specFilterC2 (eng : DedupeEngine) :
    List CandidateWork → List String → List String → List String → List CandidateWork
  | [], _, _, _ => []
  | w :: rest, accDois, accIds, accTitles =>
    if specC2_accepts eng w accDois accIds accTitles then
      w :: specFilterC2 eng rest
        (accDois ++ (match doiT w with
                     | some d => [d]
                     | none => []))
        (accIds ++ [normalize_identifier w.identifier])
        (accTitles ++ [normalize_title w.title])
    else specFilterC2 eng rest accDois accIds accTitles

/-- The `seen_keys` contents contributed by a list of accepted candidates. -/
def seenOf (acc : List CandidateWork) : List String :=
  acc.flatMap seenAdd

/-- The accepted-title list contributed by a list of accepted candidates. -/
def titlesOf (acc : List CandidateWork) : List String :=
  acc.map (fun p => normalize_title p.title)

/-- Declarative acceptance condition of the amended claim C2, quantifying
over the candidates accepted earlier in the batch: the DOI (when active) must
match no known DOI and no identifier-or-DOI key of an earlier accepted
candidate, the identifier likewise, and the normalized title must score
strictly below the threshold against every non-empty known title and every
non-empty earlier accepted title. -/
def spec_accepts (eng : DedupeEngine) (w : CandidateWork)
    (acc : List CandidateWork) : Prop :=
  (∀ d, doiT w = some d →
    d ∉ eng.existing_doi ∧ ∀ p ∈ acc, d ∉ seenAdd p)
  ∧ normalize_identifier w.identifier ∉ eng.existing_ids
  ∧ (∀ p ∈ acc, normalize_identifier w.identifier ∉ seenAdd p)
  ∧ (∀ t ∈ eng.existing_titles, t ≠ "" →
      qdiv (token_set_ratio (normalize_title w.title) t) 100 < eng.title_threshold)
  ∧ (∀ p ∈ acc, normalize_title p.title ≠ "" →
      qdiv (token_set_ratio (normalize_title w.title) (normalize_title p.title)) 100
        < eng.title_threshold)

instance (eng : DedupeEngine) (w : CandidateWork) (acc : List CandidateWork) :
    Decidable (spec_accepts eng w acc) := by
  unfold spec_accepts
  infer_instance

/-- Reference filter of the amended claim C2, carrying the list of already
accepted candidates instead of the implementation's accumulated sets. -/
def specFilterShared (eng : DedupeEngine) :
    List CandidateWork → List CandidateWork → List CandidateWork
  | [], _ => []
  | w :: rest, acc =>
    if spec_accepts eng w acc then w :: specFilterShared eng rest (acc ++ [w])
    else specFilterShared eng rest acc

/-- Models a `numpy` array as passed to `faiss_store.FaissIndex.from_vectors`:
its shape together with the flattened float entries. -/
structure NDArray where
  shape : List Nat
  data : List ℚ
deriving DecidableEq

/-- Models `faiss_store.FaissIndex`: the dimensionality plus the vectors held
by the underlying `IndexFlatIP`. -/
structure FaissIndex where
  dim : Nat
  vecs : List (List ℚ)
deriving DecidableEq

/-- Rebuild the row list of a 2-D array from its flattened data (`n` rows of
`d` entries each). -/
def chunkRows (n d : Nat) (xs : List ℚ) : List (List ℚ)  :=
  match n with
  | 0 => []
  | m + 1 => xs.take d :: chunkRows m d (xs.drop d)

/-- Models `faiss_store.FaissIndex.from_vectors`: reject a non-2-D array with
`ValueError("Vectors must be a 2D array")`, otherwise build an index of
dimension `shape[1]` holding all `shape[0]` rows and return it together with
`np.arange(shape[0])`. -/
def FaissIndex.from_vectors (vectors : NDArray) : Except String (FaissIndex × List Nat) :=
  if vectors.shape.length ≠ 2 then Except.error "Vectors must be a 2D array"
  else
    let n := vectors.shape.getD 0 0
    let d := vectors.shape.getD 1 0
    Except.ok (⟨d, chunkRows n d vectors.data⟩, List.range n)

/-- Inner product of two rows (`IndexFlatIP` similarity). -/
def dot (a b : List ℚ) : ℚ :=
  (List.zipWith (fun x y => x * y) a b).sum

/-- Sentinel score used by faiss to pad result rows when the index holds
fewer than `top_k` vectors: `-FLT_MAX`. -/
def flt_min : ℚ :=
  mkRat (-340282346638528859811704183484516925440) 1

/-- Insert a scored row id into a list sorted by descending score (ties keep
the smaller id first, as faiss exact search does). -/
def insertScored (x : ℚ × Int) : List (ℚ × Int) → List (ℚ × Int)
  | [] => [x]
  | y :: ys => if y.1 ≤ x.1 then x :: y :: ys else y :: insertScored x ys

/-- Sort scored row ids by descending score. -/
def sortScored (l : List (ℚ × Int)) : List (ℚ × Int) :=
  l.foldr insertScored []

/-- Models `faiss_store.FaissIndex.search` for already-2-D query batches (the
`ndim == 1` reshape branch is irrelevant to list-of-rows inputs): for each
query row, the `top_k` stored vectors by descending inner product, distances
and index positions, padded with `-FLT_MAX` / `-1` sentinels exactly as faiss
pads when fewer than `top_k` vectors exist. -/
def FaissIndex.search (idx : FaissIndex) (queries : List (List ℚ)) (top_k : Nat) :
    List (List ℚ) × List (List Int) :=
  let per := fun (q : List ℚ) =>
    let scored := idx.vecs.enum.map (fun p => (dot q p.2, (p.1 : Int)))
    let top := (sortScored scored).take top_k
    top ++ List.replicate (top_k - top.length) (flt_min, -1)
  ((queries.map per).map (fun row => row.map Prod.fst),
   (queries.map per).map (fun row => row.map Prod.snd))

/-- Euclidean norm of a row, as `numpy.linalg.norm` computes it. -/
noncomputable def l2norm (v : List ℝ) : ℝ :=
  Real.sqrt ((v.map (fun x => x ^ 2)).sum)

/-- Models the normalization step of `vectorizer.TextVectorizer.encode`
(lines 40–41): divide each row by its Euclidean norm plus `1e-12`. -/
noncomputable def normalizeRow (v : List ℝ) : List ℝ :=
  v.map (fun x => x / (l2norm v + 1 / 1000000000000))

/-- Models `vectorizer.TextVectorizer.encode` applied to the matrix produced
by the external sentence-transformers model (the model itself is an external
collaborator, so its output rows are taken as arbitrary input here). -/
noncomputable def encodeRows (rows : List (List ℝ)) : List (List ℝ) :=
  rows.map normalizeRow

/-- Models `models.CandidateWork.content_for_embedding`: title, then the
abstract when truthy, then the `"; "`-joined author list when non-empty,
joined by newlines with falsy parts dropped. -/
def CandidateWork.content_for_embedding (c : CandidateWork) : String :=
  let parts := [c.title]
    ++ (match c.abstract with
        | some a => if a = "" then [] else [a]
        | none => [])
    ++ (if c.authors.isEmpty then [] else [String.intercalate "; " c.authors])
  String.intercalate "\n" (parts.filter (fun s => !(s == "")))

/-- Models `models.RankedWork`: a `CandidateWork` augmented with the scoring
fields added by `score_rank.WorkRanker.rank`. -/
structure RankedWork extends CandidateWork where
  score : ℝ
  similarity : ℚ
  recency_score : ℚ
  metric_score : ℝ
  author_bonus : ℚ
  venue_bonus : ℚ
  journal_quality : ℝ
  journal_sjr : Option ℚ
  label : String

/-- Modelled from the spec: the scoring weight block of `settings.Settings`
(the settings module itself is not part of the provided sources); the named
coefficients used by `WorkRanker.rank`.  `journal_quality` is optional
because the code reads it with `getattr(weights, "journal_quality", 0.0)`. -/
structure Weights where
  similarity : ℚ
  recency : ℚ
  citations : ℚ
  altmetric : ℚ
  author_bonus : ℚ
  venue_bonus : ℚ
  journal_quality : Option ℚ
deriving DecidableEq

/-- Modelled from the spec: the two label thresholds of the settings. -/
structure Thresholds where
  must_read : ℚ
  consider : ℚ
deriving DecidableEq

/-- Modelled from the spec: the scoring block of the settings consumed by
`score_rank` (weights, thresholds, recency decay day boundaries, author and
venue whitelists). -/
structure ScoringSettings where
  weights : Weights
  thresholds : Thresholds
  decay_days : List (String × Int)
  whitelist_authors : List String
  whitelist_venues : List String

/-- Modelled from the spec: the settings object, of which `score_rank` only
reads the scoring block. -/
structure Settings where
  scoring : ScoringSettings

/-- The environment a `score_rank.WorkRanker` instance carries at `rank`
time: the embedding function (the external sentence-transformers model
composed with `encode`'s normalization, abstracted as an arbitrary function
to unit-dimension rows of floats), the loaded faiss index, the journal
SJR table, the settings, and the current UTC time in POSIX seconds. -/
structure RankerEnv where
  embed : String → List ℚ
  index : FaissIndex
  journal_metrics : List (String × ℚ)
  settings : Settings
  now : Int

/-- Models `dict.get(key, default)` on an `Int`-valued association list. -/
def lookupD (m : List (String × Int)) (k : String) (d : Int) : Int :=
  ((m.find? (fun p => p.1 == k)).map Prod.snd).getD d

/-- Models `dict.get(key)` on a `ℚ`-valued association list. -/
def lookupQ (m : List (String × ℚ)) (k : String) : Option ℚ :=
  (m.find? (fun p => p.1 == k)).map Prod.snd

/-- Models `score_rank._compute_recency`: 0 without a publication date, else
the four-tier staircase over the age in whole days (`timedelta.days` floors,
hence `Int.fdiv` by 86400, clamped at 0), with boundaries read from the decay
table with defaults 30 / 60 / 180.  The tier values 1.0 / 0.7 / 0.4 / 0.1 are
written `mkRat` so the definition evaluates in the kernel. -/
def compute_recency (published : Option Int) (now : Int)
    (decay : List (String × Int)) : ℚ :=
  match published with
  | none => 0
  | some p =>
    let delta_days : Int := max ((now - p).fdiv 86400) 0
    if delta_days ≤ lookupD decay "fast" 30 then 1
    else if delta_days ≤ lookupD decay "medium" 60 then mkRat 7 10
    else if delta_days ≤ lookupD decay "slow" 180 then mkRat 2 5
    else mkRat 1 10

/-- Models the `log1p`-with-falsy-guard pattern of `score_rank._compute_metric`:
`float(np.log1p(x)) if x else 0.0`. -/
noncomputable def log_compress (x : ℚ) : ℝ :=
  if x = 0 then 0 else Real.log (1 + (x : ℝ))

/-- Models `score_rank._compute_metric`: the citation count is
`metrics.get("cited_by", metrics.get("is-referenced-by", 0.0))`, the
altmetric count is `metrics.get("altmetric", 0.0)`, each compressed with
`log1p` and zeroed when falsy. -/
noncomputable def compute_metric (c : CandidateWork) : ℝ × ℝ :=
  let citations := (lookupQ c.metrics "cited_by").getD
    ((lookupQ c.metrics "is-referenced-by").getD 0)
  let altmetric := (lookupQ c.metrics "altmetric").getD 0
  (log_compress citations, log_compress altmetric)

/-- Models `score_rank._journal_quality_score`: neutral 1.0 (with no resolved
value) for a falsy venue or a missing table entry, else
`max(1.0, log1p(value))` together with the resolved value. -/
noncomputable def journal_quality_score (venue : Option String)
    (metrics : List (String × ℚ)) : ℝ × Option ℚ :=
  match venue with
  | none => (1, none)
  | some v =>
    if v = "" then (1, none)
    else
      match lookupQ metrics (asciiLower (pyStrip v)) with
      | none => (1, none)
      | some value =>
        let s := Real.log (1 + (value : ℝ))
        (if s < 1 then 1 else s, some value)

/-- Models `score_rank._bonus`: 1.0 as soon as some truthy value matches the
lower-cased whitelist, else 0.0. -/
def bonus (values : List String) (whitelist : List String) : ℚ :=
  if values.any (fun v =>
      !(v == "") && (whitelist.map asciiLower).contains (asciiLower v)) then 1
  else 0

/-- Models the label assignment of `score_rank.WorkRanker.rank`
(lines 104–108): `must_read` when the score reaches the must-read threshold,
else `consider` when it reaches the consider threshold, else `ignore`. -/
noncomputable def labelOf (score : ℝ) (t : Thresholds) : String :=
  if (t.must_read : ℝ) ≤ score then "must_read"
  else if (t.consider : ℝ) ≤ score then "consider"
  else "ignore"

/-- Rank of a label in the ordered bands, for stating monotonicity. -/
def labelRank : String → Nat
  | "must_read" => 2
  | "consider" => 1
  | _ => 0

/-- Models the per-candidate body of `score_rank.WorkRanker.rank`: embed the
candidate text, take the top-1 inner-product distance from the index
(`distance[0]` when the size-1 row is non-empty, else 0.0), compute the
component scores, combine them with the configured weights, and build the
`RankedWork` from the candidate's own fields plus the scoring fields. -/
noncomputable def rankOne (env : RankerEnv) (c : CandidateWork) : RankedWork :=
  let v := env.embed c.content_for_embedding
  let distRow := ((env.index.search [v] 1).1).headD []
  let similarity : ℚ := if distRow.isEmpty then 0 else distRow.headD 0
  let w := env.settings.scoring.weights
  let recency_score := compute_recency c.published env.now env.settings.scoring.decay_days
  let ms := compute_metric c
  let jq := journal_quality_score c.venue env.journal_metrics
  let author_bonus := bonus c.authors env.settings.scoring.whitelist_authors
  let venue_bonus := bonus
    (match c.venue with
     | some vn => if vn = "" then [] else [vn]
     | none => []) env.settings.scoring.whitelist_venues
  let score : ℝ := (similarity : ℝ) * (w.similarity : ℝ)
    + (recency_score : ℝ) * (w.recency : ℝ)
    + ms.1 * (w.citations : ℝ)
    + ms.2 * (w.altmetric : ℝ)
    + jq.1 * ((w.journal_quality.getD 0 : ℚ) : ℝ)
    + (author_bonus : ℝ) * (w.author_bonus : ℝ)
    + (venue_bonus : ℝ) * (w.venue_bonus : ℝ)
  { toCandidateWork := c
    score := score
    similarity := similarity
    recency_score := recency_score
    metric_score := ms.1
    author_bonus := author_bonus
    venue_bonus := venue_bonus
    journal_quality := jq.1
    journal_sjr := jq.2
    label := labelOf score env.settings.scoring.thresholds }

/-- Comparison used to model `ranked.sort(key=lambda w: w.score, reverse=True)`:
a stable sort placing `a` before `b` when `a.score >= b.score`. -/
noncomputable def rankLe (a b : RankedWork) : Bool :=
  decide (b.score ≤ a.score)

/-- Models `score_rank.WorkRanker.rank`: empty input short-circuits to `[]`;
otherwise every candidate is scored and the result is stably sorted by
descending composite score (CPython's stable sort with `reverse=True` is
modelled by a stable merge sort on the reversed comparison). -/
noncomputable def WorkRanker.rank (env : RankerEnv) (candidates : List CandidateWork) :
    List RankedWork :=
  if candidates.isEmpty then []
  else (candidates.map (rankOne env)).mergeSort rankLe

/-- Sample dedupe engine with an empty known-item corpus and the default
title threshold 0.9. -/
def engEmpty : DedupeEngine :=
  ⟨mkRat 9 10, [], [], []⟩

/-- Sample candidate: identifier `x`, no DOI, title `a`. -/
def candIdX : CandidateWork :=
  ⟨"s", "x", "a", none, [], none, none, none, none, [], []⟩

/-- Sample candidate: identifier `y`, DOI `x`, title `b`. -/
def candDoiX : CandidateWork :=
  ⟨"s", "y", "b", none, [], some "x", none, none, none, [], []⟩

/-- Sample candidate: identifier `x`, DOI `z`, title `a`. -/
def candIdXDoiZ : CandidateWork :=
  ⟨"s", "x", "a", none, [], some "z", none, none, none, [], []⟩

/-- Sample candidate: identifier `z`, no DOI, title `b`. -/
def candIdZ : CandidateWork :=
  ⟨"s", "z", "b", none, [], none, none, none, none, [], []⟩

/-- Sample ranker environment used to witness the ranking theorems. -/
def sampleEnv : RankerEnv :=
  ⟨fun _ => [], ⟨4, []⟩, [], ⟨⟨⟨1, 1, 1, 1, 1, 1, none⟩, ⟨mkRat 4 5, mkRat 1 2⟩, [], [], []⟩⟩, 0⟩

theorem qdiv_eq_div (a b : ℚ) : qdiv a b = a / b := by
  rw [qdiv, Rat.divInt_eq_div]
  rcases eq_or_ne b 0 with hb | hb
  · subst hb
    simp
  · have had : ((a.den : ℚ)) ≠ 0 := Nat.cast_ne_zero.mpr a.den_nz
    have hbd : ((b.den : ℚ)) ≠ 0 := Nat.cast_ne_zero.mpr b.den_nz
    have hbn : ((b.num : ℚ)) ≠ 0 := Int.cast_ne_zero.mpr (Rat.num_ne_zero.mpr hb)
    have ha : (a.num : ℚ) = a * a.den := (div_eq_iff had).mp (Rat.num_div_den a)
    have hbq : (b.num : ℚ) = b * b.den := (div_eq_iff hbd).mp (Rat.num_div_den b)
    push_cast
    rw [div_eq_div_iff (mul_ne_zero had hbn) hb, ha, hbq]
    ring

theorem lookupD_nil (k : String) (d : Int) : lookupD [] k d = d := rfl

theorem labelOf_band1 {s : ℝ} {t : Thresholds} (h : (t.must_read : ℝ) ≤ s) :
    labelOf s t = "must_read" := by
  unfold labelOf
  rw [if_pos h]

theorem labelOf_band2 {s : ℝ} {t : Thresholds} (h1 : ¬ (t.must_read : ℝ) ≤ s)
    (h2 : (t.consider : ℝ) ≤ s) : labelOf s t = "consider" := by
  unfold labelOf
  rw [if_neg h1, if_pos h2]

theorem labelOf_band3 {s : ℝ} {t : Thresholds} (h1 : ¬ (t.must_read : ℝ) ≤ s)
    (h2 : ¬ (t.consider : ℝ) ≤ s) : labelOf s t = "ignore" := by
  unfold labelOf
  rw [if_neg h1, if_neg h2]

/-- Claim C1 (counterexample): `FaissIndex.from_vectors` applied to a 2-D
batch of N = 0 vectors of dimension 3 does not raise: it returns a queryable
index over zero vectors, and searching that index succeeds, returning faiss's
sentinel distance and id.  This refutes the claim that every N = 0 batch
fails with an explicit error. -/
theorem claim_C1_cex :
    FaissIndex.from_vectors ⟨[0, 3], []⟩ = Except.ok (⟨3, []⟩, ([] : List Nat))
  ∧ FaissIndex.search ⟨3, []⟩ [[1, 2, 3]] 1 = ([[flt_min]], [[-1]]) := by
  constructor
  · rfl
  · rfl

/-- Claim C1 (amended): `FaissIndex.from_vectors` fails with an explicit
error exactly when the input array is not 2-dimensional; a 2-D batch with
N = 0 rows is accepted and yields an index over zero vectors (the empty-index
guard lives in `FaissIndex.load`, not in `from_vectors`). -/
theorem claim_C1_amended (a : NDArray) :
    ((∃ e, FaissIndex.from_vectors a = Except.error e) ↔ a.shape.length ≠ 2)
  ∧ (∀ d : Nat, a.shape = [0, d] →
      FaissIndex.from_vectors a = Except.ok (⟨d, []⟩, [])) := by
  constructor
  · constructor
    · rintro ⟨e, he⟩
      by_cases hc : a.shape.length ≠ 2
      · exact hc
      · rw [FaissIndex.from_vectors, if_neg hc] at he
        exact absurd he (by simp)
    · intro hlen
      exact ⟨"Vectors must be a 2D array", by rw [FaissIndex.from_vectors, if_pos hlen]⟩
  · intro d hshape
    rw [FaissIndex.from_vectors, if_neg (by rw [hshape]; simp)]
    rw [hshape]
    rfl

theorem claim_C1_amended_witness :
    (NDArray.mk [0, 2] []).shape = [0, 2]
  ∧ FaissIndex.from_vectors ⟨[0, 2], []⟩ = Except.ok (⟨2, []⟩, []) :=
  ⟨rfl, (claim_C1_amended ⟨[0, 2], []⟩).2 2 rfl⟩

/-- Claim C4: with thresholds satisfying `consider ≤ must_read`, the label is
a pure monotone function of the composite score; the three bands are exactly
score ≥ must_read ↦ must_read, consider ≤ score < must_read ↦ consider and
score < consider ↦ ignore; `rankOne` assigns labels through this function;
and with thresholds 0.8 / 0.5 a score of 0.81 is must_read, exactly 0.5 is
consider, and 0.49999 is ignore. -/
theorem claim_C4 (t : Thresholds) (h : t.consider ≤ t.must_read) (s1 s2 : ℝ)
    (h12 : s1 ≤ s2) :
    labelRank (labelOf s1 t) ≤ labelRank (labelOf s2 t)
  ∧ ((t.must_read : ℝ) ≤ s1 ↔ labelOf s1 t = "must_read")
  ∧ (((t.consider : ℝ) ≤ s1 ∧ s1 < (t.must_read : ℝ)) ↔ labelOf s1 t = "consider")
  ∧ (s1 < (t.consider : ℝ) ↔ labelOf s1 t = "ignore")
  ∧ (∀ env c, (rankOne env c).label =
      labelOf (rankOne env c).score env.settings.scoring.thresholds)
  ∧ labelOf (81 / 100 : ℝ) ⟨4 / 5, 1 / 2⟩ = "must_read"
  ∧ labelOf (1 / 2 : ℝ) ⟨4 / 5, 1 / 2⟩ = "consider"
  ∧ labelOf (49999 / 100000 : ℝ) ⟨4 / 5, 1 / 2⟩ = "ignore" := by
  have hq : ((t.consider : ℝ)) ≤ (t.must_read : ℝ) := by exact_mod_cast h
  refine ⟨?_, ?_, ?_, ?_, fun env c => rfl, ?_, ?_, ?_⟩
  · by_cases hA : (t.must_read : ℝ) ≤ s1
    · rw [labelOf_band1 hA, labelOf_band1 (le_trans hA h12)]
    · by_cases hB : (t.consider : ℝ) ≤ s1
      · by_cases hA2 : (t.must_read : ℝ) ≤ s2
        · rw [labelOf_band2 hA hB, labelOf_band1 hA2]
          decide
        · rw [labelOf_band2 hA hB, labelOf_band2 hA2 (le_trans hB h12)]
      · rw [labelOf_band3 hA hB]
        exact Nat.zero_le _
  · constructor
    · intro hA
      exact labelOf_band1 hA
    · intro hl
      by_contra hA
      by_cases hB : (t.consider : ℝ) ≤ s1
      · rw [labelOf_band2 hA hB] at hl
        exact absurd hl (by decide)
      · rw [labelOf_band3 hA hB] at hl
        exact absurd hl (by decide)
  · constructor
    · rintro ⟨hB, hlt⟩
      exact labelOf_band2 (not_le.mpr hlt) hB
    · intro hl
      by_cases hA : (t.must_read : ℝ) ≤ s1
      · rw [labelOf_band1 hA] at hl
        exact absurd hl (by decide)
      · by_cases hB : (t.consider : ℝ) ≤ s1
        · exact ⟨hB, not_le.mp hA⟩
        · rw [labelOf_band3 hA hB] at hl
          exact absurd hl (by decide)
  · constructor
    · intro hlt
      have hB : ¬ (t.consider : ℝ) ≤ s1 := not_le.mpr hlt
      have hA : ¬ (t.must_read : ℝ) ≤ s1 := fun hA => hB (le_trans hq hA)
      exact labelOf_band3 hA hB
    · intro hl
      by_contra hge
      have hB : (t.consider : ℝ) ≤ s1 := not_lt.mp hge
      by_cases hA : (t.must_read : ℝ) ≤ s1
      · rw [labelOf_band1 hA] at hl
        exact absurd hl (by decide)
      · rw [labelOf_band2 hA hB] at hl
        exact absurd hl (by decide)
  · exact labelOf_band1 (by show ((4 / 5 : ℚ) : ℝ) ≤ 81 / 100; push_cast; norm_num)
  · exact labelOf_band2 (by show ¬ ((4 / 5 : ℚ) : ℝ) ≤ 1 / 2; push_cast; norm_num)
      (by show ((1 / 2 : ℚ) : ℝ) ≤ 1 / 2; push_cast; norm_num)
  · exact labelOf_band3 (by show ¬ ((4 / 5 : ℚ) : ℝ) ≤ 49999 / 100000; push_cast; norm_num)
      (by show ¬ ((1 / 2 : ℚ) : ℝ) ≤ 49999 / 100000; push_cast; norm_num)

theorem claim_C4_witness :
    ((1 : ℚ) / 2 ≤ 4 / 5) ∧ ((0 : ℝ) ≤ 1)
  ∧ labelRank (labelOf 0 ⟨4 / 5, 1 / 2⟩) ≤ labelRank (labelOf 1 ⟨4 / 5, 1 / 2⟩) :=
  ⟨by norm_num, by norm_num, (claim_C4 ⟨4 / 5, 1 / 2⟩ (by norm_num) 0 1 (by norm_num)).1⟩

/-- Claim C5: `_compute_recency` returns 0 for a missing publication date;
otherwise, with the age in whole days from now (floored as `timedelta.days`
does, clamped at 0) and the default boundaries 30 / 60 / 180, the staircase
is 1.0 for age ≤ 30, 0.7 for 30 < age ≤ 60, 0.4 for 60 < age ≤ 180 and 0.1
beyond; in particular exactly 30 days gives 1.0 and exactly 31 days 0.7. -/
theorem claim_C5 (pub now a : Int)
    (ha : a = max ((now - pub).fdiv 86400) 0) :
    compute_recency none now [] = 0
  ∧ (a ≤ 30 → compute_recency (some pub) now [] = 1)
  ∧ (30 < a → a ≤ 60 → compute_recency (some pub) now [] = mkRat 7 10)
  ∧ (60 < a → a ≤ 180 → compute_recency (some pub) now [] = mkRat 2 5)
  ∧ (180 < a → compute_recency (some pub) now [] = mkRat 1 10)
  ∧ compute_recency (some 0) (30 * 86400) [] = 1
  ∧ compute_recency (some 0) (31 * 86400) [] = mkRat 7 10 := by
  subst ha
  refine ⟨rfl, ?_, ?_, ?_, ?_, by decide, by decide⟩
  · intro h1
    simp only [compute_recency, lookupD_nil]
    rw [if_pos h1]
  · intro h1 h2
    simp only [compute_recency, lookupD_nil]
    rw [if_neg (by omega), if_pos h2]
  · intro h1 h2
    simp only [compute_recency, lookupD_nil]
    rw [if_neg (by omega), if_neg (by omega), if_pos h2]
  · intro h1
    simp only [compute_recency, lookupD_nil]
    rw [if_neg (by omega), if_neg (by omega), if_neg (by omega)]

theorem claim_C5_witness :
    (30 : Int) < max (((31 * 86400 : Int) - 0).fdiv 86400) 0
  ∧ max (((31 * 86400 : Int) - 0).fdiv 86400) 0 ≤ 60
  ∧ compute_recency (some 0) (31 * 86400) [] = mkRat 7 10 :=
  ⟨by decide, by decide, (claim_C5 0 (31 * 86400) _ rfl).2.2.1 (by decide) (by decide)⟩

/-- Claim C7: the citation metric component is `log(1+x)` of the citation
count for every nonnegative count, hence monotone (`c1 < c2` implies
`metric_score c1 ≤ metric_score c2`); a zero count yields exactly 0; and an
absent citation (resp. altmetric) count yields a metric component of 0. -/
theorem claim_C7 (c1 c2 : ℚ) (h1 : 0 ≤ c1) (h2 : c1 < c2) :
    log_compress c1 ≤ log_compress c2
  ∧ (∀ c : ℚ, 0 ≤ c → log_compress c = Real.log (1 + (c : ℝ)))
  ∧ log_compress 0 = 0
  ∧ (∀ cand : CandidateWork, lookupQ cand.metrics "cited_by" = none →
      lookupQ cand.metrics "is-referenced-by" = none → (compute_metric cand).1 = 0)
  ∧ (∀ cand : CandidateWork, lookupQ cand.metrics "altmetric" = none →
      (compute_metric cand).2 = 0) := by
  have hlog : ∀ c : ℚ, 0 ≤ c → log_compress c = Real.log (1 + (c : ℝ)) := by
    intro c hc
    by_cases h : c = 0
    · subst h
      simp [log_compress]
    · simp [log_compress, h]
  refine ⟨?_, hlog, by simp [log_compress], ?_, ?_⟩
  · have h1r : (0 : ℝ) ≤ (c1 : ℝ) := by exact_mod_cast h1
    have h2r : (c1 : ℝ) ≤ (c2 : ℝ) := by exact_mod_cast h2.le
    rw [hlog c1 h1, hlog c2 (le_trans h1 h2.le)]
    exact (Real.log_le_log_iff (by linarith) (by linarith)).mpr (by linarith)
  · intro cand hc hr
    simp [compute_metric, hc, hr, log_compress]
  · intro cand hal
    simp [compute_metric, hal, log_compress]

theorem claim_C7_witness :
    ((0 : ℚ) ≤ 0) ∧ ((0 : ℚ) < 1) ∧ log_compress 0 ≤ log_compress 1 :=
  ⟨le_refl 0, by norm_num, (claim_C7 0 1 (by norm_num) (by norm_num)).1⟩

theorem sum_sq_nonneg (v : List ℝ) : 0 ≤ (v.map (fun x => x ^ 2)).sum := by
  apply List.sum_nonneg
  intro x hx
  obtain ⟨y, _, rfl⟩ := List.mem_map.mp hx
  positivity

theorem l2norm_nonneg (v : List ℝ) : 0 ≤ l2norm v :=
  Real.sqrt_nonneg _

theorem sum_sq_div (v : List ℝ) (c : ℝ) :
    ((v.map (fun x => x / c)).map (fun x => x ^ 2)).sum
      = (v.map (fun x => x ^ 2)).sum / c ^ 2 := by
  induction v with
  | nil => simp
  | cons a as ih =>
    simp only [List.map_cons, List.sum_cons]
    rw [ih, div_pow, add_div]

theorem l2norm_div (v : List ℝ) (c : ℝ) (hc : 0 < c) :
    l2norm (v.map (fun x => x / c)) = l2norm v / c := by
  unfold l2norm
  rw [sum_sq_div, Real.sqrt_div (sum_sq_nonneg v), Real.sqrt_sq hc.le]

theorem normalizeRow_norm (v : List ℝ) :
    l2norm (normalizeRow v) = l2norm v / (l2norm v + 1 / 1000000000000) := by
  have hc : (0 : ℝ) < l2norm v + 1 / 1000000000000 := by
    have := l2norm_nonneg v
    linarith [show (0 : ℝ) < 1 / 1000000000000 by norm_num]
  unfold normalizeRow
  rw [l2norm_div v _ hc]

/-- Claim C6 (counterexample): the normalization step of
`TextVectorizer.encode` does not produce a unit-norm row when the raw
embedding row is the zero vector: the row `[0]` is mapped to itself and its
norm 0 is not within 1e-5 of 1.  This refutes the claim for every input whose
model embedding row is zero. -/
theorem claim_C6_cex :
    normalizeRow [(0 : ℝ)] ∈ encodeRows [[(0 : ℝ)]]
  ∧ ¬ |l2norm (normalizeRow [(0 : ℝ)]) - 1| ≤ 1 / 100000 := by
  constructor
  · simp [encodeRows]
  · have h1 : normalizeRow [(0 : ℝ)] = [0] := by
      simp [normalizeRow]
    have h0 : l2norm [(0 : ℝ)] = 0 := by
      simp [l2norm]
    rw [h1, h0]
    rw [abs_of_nonpos (by norm_num)]
    norm_num

/-- Claim C6 (amended): every row of the matrix returned by
`TextVectorizer.encode` whose raw model embedding has Euclidean norm at least
1e-7 is L2-normalized to unit length within tolerance 1e-5 (the `+ 1e-12`
divisor guard means exactly-unit norm is only reached in the limit, and a
zero embedding row stays zero). -/
theorem claim_C6_amended (rows : List (List ℝ)) (u : List ℝ)
    (hu : u ∈ encodeRows rows)
    (h : ∀ v ∈ rows, 1 / 10000000 ≤ l2norm v) :
    |l2norm u - 1| ≤ 1 / 100000 := by
  obtain ⟨v, hv, rfl⟩ := List.mem_map.mp hu
  have hn := h v hv
  have hn0 : (0 : ℝ) < l2norm v := lt_of_lt_of_le (by norm_num) hn
  have hc : (0 : ℝ) < l2norm v + 1 / 1000000000000 := by linarith
  rw [normalizeRow_norm]
  have hle : l2norm v / (l2norm v + 1 / 1000000000000) ≤ 1 := by
    rw [div_le_one hc]
    linarith
  rw [abs_sub_comm, abs_of_nonneg (by linarith)]
  have h2 : 1 - l2norm v / (l2norm v + 1 / 1000000000000)
      = (1 / 1000000000000) / (l2norm v + 1 / 1000000000000) := by
    field_simp
  rw [h2]
  have h3 : (1 / 1000000000000 : ℝ) / (l2norm v + 1 / 1000000000000)
      ≤ (1 / 1000000000000) / l2norm v :=
    div_le_div_of_nonneg_left (by norm_num) hn0 (by linarith)
  refine le_trans h3 ?_
  rw [div_le_iff₀ hn0]
  nlinarith [hn]

theorem claim_C6_amended_witness :
    normalizeRow [(1 : ℝ), 0] ∈ encodeRows [[(1 : ℝ), 0]]
  ∧ (∀ v ∈ [[(1 : ℝ), 0]], (1 : ℝ) / 10000000 ≤ l2norm v)
  ∧ |l2norm (normalizeRow [(1 : ℝ), 0]) - 1| ≤ 1 / 100000 := by
  have hone : l2norm [(1 : ℝ), 0] = 1 := by
    simp [l2norm]
  have hmem : normalizeRow [(1 : ℝ), 0] ∈ encodeRows [[(1 : ℝ), 0]] := by
    simp [encodeRows]
  have hall : ∀ v ∈ [[(1 : ℝ), 0]], (1 : ℝ) / 10000000 ≤ l2norm v := by
    intro v hv
    rw [List.mem_singleton] at hv
    subst hv
    rw [hone]
    norm_num
  exact ⟨hmem, hall, claim_C6_amended _ _ hmem hall⟩

theorem rankLe_trans : ∀ (a b c : RankedWork), rankLe a b → rankLe b c → rankLe a c := by
  intro a b c hab hbc
  simp only [rankLe, decide_eq_true_eq] at hab hbc ⊢
  exact le_trans hbc hab

theorem rankLe_total : ∀ (a b : RankedWork), rankLe a b || rankLe b a := by
  intro a b
  simp only [rankLe, Bool.or_eq_true, decide_eq_true_eq]
  exact le_total b.score a.score

theorem rank_eq_mergeSort (env : RankerEnv) (cs : List CandidateWork) :
    WorkRanker.rank env cs = (cs.map (rankOne env)).mergeSort rankLe := by
  unfold WorkRanker.rank
  by_cases h : cs.isEmpty
  · rw [if_pos h, List.isEmpty_iff.mp h]
    simp
  · rw [if_neg h]

theorem rankOne_toCandidateWork (env : RankerEnv) (c : CandidateWork) :
    (rankOne env c).toCandidateWork = c := rfl

/-- Claim C9: every `RankedWork` produced by `rank` carries the fields of its
originating candidate unchanged — projecting the output back to
`CandidateWork` records yields exactly the input candidates (as a
permutation, since `rank` sorts); the scoring fields are the only additions,
by the structure extension `RankedWork extends CandidateWork`. -/
theorem claim_C9 (env : RankerEnv) (cs : List CandidateWork) :
    ((WorkRanker.rank env cs).map RankedWork.toCandidateWork).Perm cs := by
  rw [rank_eq_mergeSort]
  have h1 : (((cs.map (rankOne env)).mergeSort rankLe).map RankedWork.toCandidateWork).Perm
      ((cs.map (rankOne env)).map RankedWork.toCandidateWork) :=
    (List.mergeSort_perm _ _).map _
  have h2 : (cs.map (rankOne env)).map RankedWork.toCandidateWork = cs := by
    rw [List.map_map]
    have hid : RankedWork.toCandidateWork ∘ rankOne env = id :=
      funext fun c => rankOne_toCandidateWork env c
    rw [hid, List.map_id]
  rw [h2] at h1
  exact h1

/-- Claim C3: `rank` returns its results sorted by descending composite score
with a stable sort (for every score value, the output entries carrying that
score appear in exactly the order the corresponding candidates appeared in
the input), and permuting the input only permutes the scores: two inputs
that are permutations of each other yield the same multiset of scores. -/
theorem claim_C3 (env : RankerEnv) (cs cs2 : List CandidateWork)
    (hperm : cs.Perm cs2) :
    (WorkRanker.rank env cs).Pairwise (fun a b => b.score ≤ a.score)
  ∧ (∀ s : ℝ, (WorkRanker.rank env cs).filter (fun w => decide (w.score = s))
      = (cs.map (rankOne env)).filter (fun w => decide (w.score = s)))
  ∧ ((WorkRanker.rank env cs).map RankedWork.score).Perm
      ((WorkRanker.rank env cs2).map RankedWork.score) := by
  refine ⟨?_, ?_, ?_⟩
  · rw [rank_eq_mergeSort]
    have hs := List.sorted_mergeSort rankLe_trans rankLe_total (cs.map (rankOne env))
    exact hs.imp (fun h => by simpa [rankLe] using h)
  · intro s
    rw [rank_eq_mergeSort]
    have hpw : ((cs.map (rankOne env)).filter
        (fun w => decide (w.score = s))).Pairwise (fun a b => rankLe a b) := by
      apply List.pairwise_of_forall_mem_list
      intro a ha b hb
      have ha2 : a.score = s := by
        have := List.of_mem_filter ha
        simpa using this
      have hb2 : b.score = s := by
        have := List.of_mem_filter hb
        simpa using this
      simp [rankLe, ha2, hb2]
    have hsub : List.Sublist
        ((cs.map (rankOne env)).filter (fun w => decide (w.score = s)))
        ((cs.map (rankOne env)).mergeSort rankLe) :=
      List.sublist_mergeSort rankLe_trans rankLe_total hpw (List.filter_sublist _)
    have hsub2 : List.Sublist
        ((cs.map (rankOne env)).filter (fun w => decide (w.score = s)))
        (((cs.map (rankOne env)).mergeSort rankLe).filter
            (fun w => decide (w.score = s))) := by
      have hff : ((cs.map (rankOne env)).filter (fun w => decide (w.score = s))).filter
          (fun w => decide (w.score = s))
          = (cs.map (rankOne env)).filter (fun w => decide (w.score = s)) :=
        List.filter_eq_self.mpr (fun a ha => (List.mem_filter.mp ha).2)
      have := hsub.filter (fun w => decide (w.score = s))
      rwa [hff] at this
    have hlen : ((cs.map (rankOne env)).filter (fun w => decide (w.score = s))).length
        = (((cs.map (rankOne env)).mergeSort rankLe).filter
            (fun w => decide (w.score = s))).length :=
      ((List.mergeSort_perm (cs.map (rankOne env)) rankLe).filter _).length_eq.symm
    exact (hsub2.eq_of_length hlen).symm
  · have key : ∀ l : List CandidateWork,
        ((WorkRanker.rank env l).map RankedWork.score).Perm
          (l.map (fun c => (rankOne env c).score)) := by
      intro l
      rw [rank_eq_mergeSort]
      have h1 : (((l.map (rankOne env)).mergeSort rankLe).map RankedWork.score).Perm
          ((l.map (rankOne env)).map RankedWork.score) :=
        (List.mergeSort_perm _ _).map _
      rwa [List.map_map] at h1
    exact ((key cs).trans (hperm.map _)).trans (key cs2).symm

theorem claim_C3_witness :
    (([candIdX] : List CandidateWork).Perm [candIdX])
  ∧ (WorkRanker.rank sampleEnv [candIdX]).Pairwise (fun a b => b.score ≤ a.score) :=
  ⟨List.Perm.refl _,
    (claim_C3 sampleEnv [candIdX] [candIdX] (List.Perm.refl _)).1⟩

theorem filterGo_cons (eng : DedupeEngine) (w : CandidateWork)
    (rest : List CandidateWork) (seenKeys batchTitles : List String) :
    filterGo eng (w :: rest) seenKeys batchTitles =
      if dedupe_accepts eng w seenKeys batchTitles then
        w :: filterGo eng rest (seenKeys ++ seenAdd w)
          (batchTitles ++ [normalize_title w.title])
      else filterGo eng rest seenKeys batchTitles := by
  cases hd : doiT w with
  | none =>
    simp only [filterGo, dedupe_accepts, seenAdd, hd]
    simp
    split_ifs <;> first | rfl | tauto | simp_all
  | some d =>
    simp only [filterGo, dedupe_accepts, seenAdd, hd]
    simp
    split_ifs <;> first | rfl | tauto | simp_all

theorem filterGo_sublist (eng : DedupeEngine) :
    ∀ (cs : List CandidateWork) (seenKeys batchTitles : List String),
      List.Sublist (filterGo eng cs seenKeys batchTitles) cs := by
  intro cs
  induction cs with
  | nil =>
    intro s t
    simp [filterGo]
  | cons w rest ih =>
    intro s t
    rw [filterGo_cons]
    by_cases h : dedupe_accepts eng w s t = true
    · rw [if_pos h]
      exact List.Sublist.cons₂ _ (ih _ _)
    · rw [if_neg h]
      exact List.Sublist.cons _ (ih _ _)

theorem filterGo_idem (eng : DedupeEngine) :
    ∀ (cs : List CandidateWork) (seenKeys batchTitles : List String),
      filterGo eng (filterGo eng cs seenKeys batchTitles) seenKeys batchTitles
        = filterGo eng cs seenKeys batchTitles := by
  intro cs
  induction cs with
  | nil =>
    intro s t
    rfl
  | cons w rest ih =>
    intro s t
    rw [filterGo_cons]
    by_cases h : dedupe_accepts eng w s t = true
    · rw [if_pos h, filterGo_cons, if_pos h, ih]
    · rw [if_neg h, ih]

/-- Claim C8: dedupe filtering is idempotent against a fixed engine state —
re-filtering an already filtered batch returns it unchanged. -/
theorem claim_C8 (eng : DedupeEngine) (cs : List CandidateWork) :
    eng.filter (eng.filter cs) = eng.filter cs :=
  filterGo_idem eng cs [] []

/-- Claim C10: within one `filter` call the identifiers and DOIs of accepted
candidates share one `seen_keys` set, so (provided `c1` passes the corpus
checks on its own, `c2`'s DOI differs from `c1`'s, and their identifiers
differ) a later candidate is rejected when its normalized DOI equals the
identifier of the earlier accepted candidate, and likewise when its
normalized identifier equals the earlier candidate's DOI — even though no
DOI-to-DOI or identifier-to-identifier match exists. -/
theorem claim_C10 (eng : DedupeEngine) (c1 c2 : CandidateWork)
    (hacc : eng.filter [c1] = [c1])
    (hdoi : doiT c2 ≠ doiT c1)
    (hid : normalize_identifier c2.identifier ≠ normalize_identifier c1.identifier) :
    (doiT c2 = some (normalize_identifier c1.identifier) → eng.filter [c1, c2] = [c1])
  ∧ (∀ d, doiT c1 = some d → normalize_identifier c2.identifier = d →
      eng.filter [c1, c2] = [c1]) := by
  have hacc1 : dedupe_accepts eng c1 [] [] = true := by
    by_contra hno
    have hnil : eng.filter [c1] = [] := by
      unfold DedupeEngine.filter
      rw [filterGo_cons, if_neg hno]
      rfl
    rw [hnil] at hacc
    exact absurd hacc (by simp)
  constructor
  · intro hd2
    show filterGo eng (c1 :: [c2]) [] [] = [c1]
    rw [filterGo_cons, if_pos hacc1, filterGo_cons,
      if_neg (by simp [dedupe_accepts, hd2, seenAdd])]
    rfl
  · intro d hd1 hk2
    show filterGo eng (c1 :: [c2]) [] [] = [c1]
    rw [filterGo_cons, if_pos hacc1, filterGo_cons,
      if_neg (by simp [dedupe_accepts, hd1, hk2, seenAdd])]
    rfl

theorem claim_C10_witness :
    engEmpty.filter [candIdXDoiZ] = [candIdXDoiZ]
  ∧ doiT candDoiX = some (normalize_identifier candIdXDoiZ.identifier)
  ∧ engEmpty.filter [candIdXDoiZ, candDoiX] = [candIdXDoiZ]
  ∧ doiT candIdXDoiZ = some "z"
  ∧ normalize_identifier candIdZ.identifier = "z"
  ∧ engEmpty.filter [candIdXDoiZ, candIdZ] = [candIdXDoiZ] :=
  ⟨by decide, by decide,
    (claim_C10 engEmpty candIdXDoiZ candDoiX (by decide) (by decide) (by decide)).1
      (by decide),
    by decide, by decide,
    (claim_C10 engEmpty candIdXDoiZ candIdZ (by decide) (by decide) (by decide)).2 "z"
      (by decide) (by decide)⟩

/-- Claim C2 (counterexample): with an empty corpus, a first candidate of
identifier `x` (no DOI, title `a`) and a second candidate of identifier `y`,
DOI `x` and dissimilar title `b`, the claim's acceptance condition holds for
both (no DOI matches a known or earlier-accepted DOI, no identifier matches a
known or earlier-accepted identifier, titles are dissimilar), yet `filter`
rejects the second candidate because its DOI hits the first candidate's
identifier in the shared `seen_keys` set. -/
theorem claim_C2_cex :
    DedupeEngine.filter engEmpty [candIdX, candDoiX] = [candIdX]
  ∧ specFilterC2 engEmpty [candIdX, candDoiX] [] [] [] = [candIdX, candDoiX] := by
  decide

theorem accepts_iff (eng : DedupeEngine) (w : CandidateWork) (acc : List CandidateWork) :
    dedupe_accepts eng w (seenOf acc) (titlesOf acc) = true ↔ spec_accepts eng w acc := by
  unfold dedupe_accepts spec_accepts seenOf titlesOf is_title_in_list
  cases hd : doiT w with
  | none =>
    simp [hd, not_or]
    tauto
  | some d =>
    simp [hd, not_or]
    tauto

theorem filterGo_spec (eng : DedupeEngine) :
    ∀ (cs acc : List CandidateWork),
      filterGo eng cs (seenOf acc) (titlesOf acc) = specFilterShared eng cs acc := by
  intro cs
  induction cs with
  | nil =>
    intro acc
    rfl
  | cons w rest ih =>
    intro acc
    rw [filterGo_cons]
    by_cases h : spec_accepts eng w acc
    · rw [if_pos ((accepts_iff eng w acc).mpr h)]
      simp only [specFilterShared]
      rw [if_pos h]
      have h1 : seenOf acc ++ seenAdd w = seenOf (acc ++ [w]) := by
        simp [seenOf]
      have h2 : titlesOf acc ++ [normalize_title w.title] = titlesOf (acc ++ [w]) := by
        simp [titlesOf]
      rw [h1, h2, ih (acc ++ [w])]
    · rw [if_neg (fun hb => h ((accepts_iff eng w acc).mp hb))]
      simp only [specFilterShared]
      rw [if_neg h]
      exact ih acc

/-- Claim C2 (amended): `DedupeEngine.filter` returns an order-preserving
subsequence of its input, and a candidate is accepted if and only if its
active normalized DOI matches no known DOI and no recorded key (identifier or
DOI) of a candidate accepted earlier in the batch, its normalized identifier
matches no known identifier and no recorded key of an earlier accepted
candidate, and its normalized title scores strictly below the threshold
against every non-empty known title and every non-empty earlier accepted
title (the only change from the claim as stated: the batch-scoped DOI and
identifier checks consult one shared set holding both the identifiers and
the DOIs of earlier accepted candidates). -/
theorem claim_C2_amended (eng : DedupeEngine) (cs : List CandidateWork) :
    eng.filter cs = specFilterShared eng cs []
  ∧ List.Sublist (eng.filter cs) cs :=
  ⟨filterGo_spec eng cs [], filterGo_sublist eng cs [] []⟩

theorem normalize_title_collapses :
    normalize_title "  Deep   LEARNING " = "deep learning" := by decide

theorem token_set_ratio_disjoint : token_set_ratio "b" "a" = 0 := by decide

theorem token_set_ratio_reorder :
    token_set_ratio "deep learning" "learning deep" = 100 := by decide

theorem token_set_ratio_attention :
    (90 : ℚ) ≤ token_set_ratio "attention is all you need" "attention is all you need!" := by
  decide
